import Mathlib

/-!
Verification of the multi-pass compute subsystem of the cuneus repository.

Shallow embedding of `src/compute/multipass.rs` (the `MultiPassManager`
ping-pong buffer manager) and `src/compute/builder.rs` (the declarative
`PassDescription` / `ComputeShaderBuilder` configuration layer).

Modelling conventions:
* Rust `HashMap<String, V>` is modelled as an association list
  `List (String × V)` with unique keys, with `findA` / `insertA` /
  `modifyA` mirroring `get` / `insert` / `get_mut`.
* GPU resources (`wgpu::Texture`, `wgpu::BindGroup`,
  `wgpu::BindGroupLayout`) are opaque records carrying the arguments of
  the call that created them plus a unique identity `id`; the device is
  modelled as a fresh-id counter threaded through every creation call,
  so "newly created" is expressible as "id at least the incoming
  counter".
* A Rust panic (`expect` / `unwrap`) is modelled as `Option.none`.
-/

namespace Cuneus

/-- First value stored under key `k`; mirrors `HashMap::get`. -/
def findA {α : Type} (l : List (String × α)) (k : String) : Option α :=
  match l with
  | [] => none
  | (k', v) :: t => if k' = k then some v else findA t k

/-- Insert-or-replace; mirrors `HashMap::insert` (value replaced in place,
existing key kept). -/
def insertA {α : Type} (l : List (String × α)) (k : String) (v : α) :
    List (String × α) :=
  match l with
  | [] => [(k, v)]
  | (k', v') :: t => if k' = k then (k', v) :: t else (k', v') :: insertA t k v

/-- Update the value under key `k` in place, if present; mirrors
`HashMap::get_mut` followed by a write through the reference. -/
def modifyA {α : Type} (l : List (String × α)) (k : String) (f : α → α) :
    List (String × α) :=
  match l with
  | [] => []
  | (k', v) :: t => if k' = k then (k', f v) :: t else (k', v) :: modifyA t k f

/-- The keys of an association list, in storage order. -/
def keysA {α : Type} (l : List (String × α)) : List String := l.map (·.1)

/-- Abstraction of `wgpu::TextureFormat`; only the identity of the format
matters to the claims, so we list the formats the repository mentions. -/
inductive TexFormat where
  | Rgba16Float
  | Rgba8Unorm
  | Other (tag : Nat)
deriving DecidableEq, Repr

/-- Abstraction of `wgpu::Texture` as produced by
`MultiPassManager::create_storage_texture`: the creation arguments plus a
device-unique identity. -/
structure Texture where
  id : Nat
  width : Nat
  height : Nat
  format : TexFormat
  label : String
deriving DecidableEq, Repr

/-- Abstraction of `wgpu::BindGroupLayout` (identity only). -/
structure BGLayout where
  id : Nat
deriving DecidableEq, Repr

/-- Abstraction of `wgpu::BindGroup` as produced by
`MultiPassManager::create_storage_bind_group`: the layout used, the id of
the texture whose view is bound at binding 0, the label, and a
device-unique identity. -/
structure BindGroup where
  id : Nat
  layout : BGLayout
  textureId : Nat
  label : String
deriving DecidableEq, Repr

/-- Model of `wgpu::Device::create_bind_group_layout`: the device hands out
a fresh identity. The entry list of the layout plays no role in any claim,
so only the identity is kept. -/
def create_bind_group_layout (c : Nat) : BGLayout × Nat :=
  ({ id := c }, c + 1)

/-- Model of `MultiPassManager::create_storage_texture` (multipass.rs
lines 128-152): one `device.create_texture` call with the given
dimensions, format and label; the device counter supplies a fresh id. -/
def create_storage_texture (c : Nat) (width height : Nat) (format : TexFormat)
    (label : String) : Texture × Nat :=
  ({ id := c, width := width, height := height, format := format,
     label := label }, c + 1)

/-- Model of `MultiPassManager::create_storage_bind_group` (multipass.rs
lines 154-169): one `device.create_bind_group` call binding the texture's
view at binding 0 against the given layout. -/
def create_storage_bind_group (c : Nat) (layout : BGLayout) (texture : Texture)
    (label : String) : BindGroup × Nat :=
  ({ id := c, layout := layout, textureId := texture.id, label := label },
   c + 1)

/-- State of `MultiPassManager` (multipass.rs lines 11-24). The three hash
maps are association lists; `write_side` follows the source's encoding:
`true` means the last write went to side `.0` (the first component). -/
structure MultiPassManager where
  buffers : List (String × (Texture × Texture))
  bind_groups : List (String × (BindGroup × BindGroup))
  write_side : List (String × Bool)
  output_texture : Texture
  output_bind_group : BindGroup
  storage_layout : BGLayout
  input_layout : BGLayout
  width : Nat
  height : Nat
  texture_format : TexFormat
deriving DecidableEq, Repr

namespace MultiPassManager

/-- The per-name body of the creation loop of `MultiPassManager::new`
(multipass.rs lines 61-92): create both side textures, both bind groups,
and insert them into the two maps. -/
def newLoop (width height : Nat) (fmt : TexFormat) (layout : BGLayout) :
    List String →
    List (String × (Texture × Texture)) →
    List (String × (BindGroup × BindGroup)) → Nat →
    List (String × (Texture × Texture)) ×
      List (String × (BindGroup × BindGroup)) × Nat
  | [], bufs, bgs, c => (bufs, bgs, c)
  | name :: rest, bufs, bgs, c =>
    let t0c := create_storage_texture c width height fmt (name ++ "_0")
    let t1c := create_storage_texture t0c.2 width height fmt (name ++ "_1")
    let b0c := create_storage_bind_group t1c.2 layout t0c.1 (name ++ "_0_bind")
    let b1c := create_storage_bind_group b0c.2 layout t1c.1 (name ++ "_1_bind")
    newLoop width height fmt layout rest
      (insertA bufs name (t0c.1, t1c.1))
      (insertA bgs name (b0c.1, b1c.1)) b1c.2

/-- Model of `MultiPassManager::new` (multipass.rs lines 28-126). `core`
contributes the surface dimensions and the device; the device is the
fresh-id counter `c`. The `_storage_layout` argument of the source is
unused there and omitted here. -/
def new (width height : Nat) (buffer_names : List String)
    (texture_format : TexFormat) (c : Nat) : MultiPassManager × Nat :=
  let slc := create_bind_group_layout c
  let ilc := create_bind_group_layout slc.2
  let built := newLoop width height texture_format slc.1 buffer_names [] [] ilc.2
  let otc := create_storage_texture built.2.2 width height texture_format
    "multipass_output"
  let obc := create_storage_bind_group otc.2 slc.1 otc.1 "output_bind"
  let write_side := buffer_names.foldl (fun ws name => insertA ws name false) []
  ({ buffers := built.1
     bind_groups := built.2.1
     write_side := write_side
     output_texture := otc.1
     output_bind_group := obc.1
     storage_layout := slc.1
     input_layout := ilc.1
     width := width
     height := height
     texture_format := texture_format }, obc.2)

/-- Model of `get_write_bind_group` (multipass.rs lines 228-236); `none`
models the `expect("Buffer not found")` panic. -/
def get_write_bind_group (m : MultiPassManager) (buffer_name : String) :
    Option BindGroup :=
  match findA m.bind_groups buffer_name with
  | none => none
  | some bind_groups =>
    let last_wrote_0 := (findA m.write_side buffer_name).getD false
    if last_wrote_0 then some bind_groups.2 else some bind_groups.1

/-- Model of `get_write_texture` (multipass.rs lines 239-247). -/
def get_write_texture (m : MultiPassManager) (buffer_name : String) :
    Option Texture :=
  match findA m.buffers buffer_name with
  | none => none
  | some textures =>
    let last_wrote_0 := (findA m.write_side buffer_name).getD false
    if last_wrote_0 then some textures.2 else some textures.1

/-- Model of `get_read_texture` (multipass.rs lines 250-258). -/
def get_read_texture (m : MultiPassManager) (buffer_name : String) :
    Option Texture :=
  match findA m.buffers buffer_name with
  | none => none
  | some textures =>
    let last_wrote_0 := (findA m.write_side buffer_name).getD false
    if last_wrote_0 then some textures.1 else some textures.2

/-- Model of `mark_written` (multipass.rs lines 274-278): flip the bit of
the named buffer if it is tracked, otherwise do nothing. -/
def mark_written (m : MultiPassManager) (buffer_name : String) :
    MultiPassManager :=
  { m with write_side := modifyA m.write_side buffer_name (fun b => !b) }

/-- Model of `flip_buffers` (multipass.rs lines 282-286): flip every
tracked bit. -/
def flip_buffers (m : MultiPassManager) : MultiPassManager :=
  { m with write_side := m.write_side.map (fun p => (p.1, !p.2)) }

/-- Model of `get_write_side` (multipass.rs lines 363-365). -/
def get_write_side (m : MultiPassManager) (buffer_name : String) : Bool :=
  (findA m.write_side buffer_name).getD false

/-- First loop of `clear_all` (multipass.rs lines 291-306): recreate both
side textures of every entry of `buffers`, in place. -/
def clearTextures (width height : Nat) (fmt : TexFormat) :
    List (String × (Texture × Texture)) → Nat →
    List (String × (Texture × Texture)) × Nat
  | [], c => ([], c)
  | (name, _) :: rest, c =>
    let t0c := create_storage_texture c width height fmt (name ++ "_0")
    let t1c := create_storage_texture t0c.2 width height fmt (name ++ "_1")
    let tail := clearTextures width height fmt rest t1c.2
    ((name, (t0c.1, t1c.1)) :: tail.1, tail.2)

/-- Second loop of `clear_all` (multipass.rs lines 309-323): recreate both
bind groups of every entry of `bind_groups`, looking the (already
recreated) textures up by name; the `unwrap` on that lookup is modelled as
`none`. -/
def clearBindGroups (layout : BGLayout)
    (bufs : List (String × (Texture × Texture))) :
    List (String × (BindGroup × BindGroup)) → Nat →
    Option (List (String × (BindGroup × BindGroup)) × Nat)
  | [], c => some ([], c)
  | (name, _) :: rest, c =>
    match findA bufs name with
    | none => none
    | some textures =>
      let b0c := create_storage_bind_group c layout textures.1
        (name ++ "_0_bind")
      let b1c := create_storage_bind_group b0c.2 layout textures.2
        (name ++ "_1_bind")
      match clearBindGroups layout bufs rest b1c.2 with
      | none => none
      | some tail => some ((name, (b0c.1, b1c.1)) :: tail.1, tail.2)

/-- Model of `clear_all` (multipass.rs lines 289-343): recreate every
buffer texture pair, then every bind-group pair, then the output texture
and its bind group, then reset every write-side bit to `false`. -/
def clear_all (m : MultiPassManager) (c : Nat) :
    Option (MultiPassManager × Nat) :=
  let bufs := clearTextures m.width m.height m.texture_format m.buffers c
  match clearBindGroups m.storage_layout bufs.1 m.bind_groups bufs.2 with
  | none => none
  | some bgs =>
    let otc := create_storage_texture bgs.2 m.width m.height m.texture_format
      "multipass_output"
    let obc := create_storage_bind_group otc.2 m.storage_layout otc.1
      "output_bind"
    some ({ m with
              buffers := bufs.1
              bind_groups := bgs.1
              output_texture := otc.1
              output_bind_group := obc.1
              write_side := m.write_side.map (fun p => (p.1, false)) }, obc.2)

/-- Model of `resize` (multipass.rs lines 346-350): store the new
dimensions, then delegate to `clear_all`. -/
def resize (m : MultiPassManager) (c : Nat) (width height : Nat) :
    Option (MultiPassManager × Nat) :=
  clear_all { m with width := width, height := height } c

end MultiPassManager

/-- Model of `PassDescription` (builder.rs lines 42-52). The
`workgroup_size` field is the optional per-pass dispatch override
(`Option<[u32; 3]>`). -/
structure PassDescription where
  name : String
  inputs : List String
  workgroup_size : Option (Nat × Nat × Nat)
deriving DecidableEq, Repr

/-- Model of `PassDescription::new` (builder.rs lines 61-67): store the
name and the inputs verbatim, with no dispatch override. -/
def PassDescription.new (name : String) (inputs : List String) :
    PassDescription :=
  { name := name, inputs := inputs, workgroup_size := none }

/-- Model of `PassDescription::with_workgroup_size` (builder.rs lines
74-77). -/
def PassDescription.with_workgroup_size (p : PassDescription)
    (size : Nat × Nat × Nat) : PassDescription :=
  { p with workgroup_size := some size }

/-- Model of `StorageBufferSpec` (builder.rs lines 84-97). -/
structure StorageBufferSpec where
  name : String
  size_bytes : Nat
deriving DecidableEq, Repr

def StorageBufferSpec.new (name : String) (size_bytes : Nat) :
    StorageBufferSpec :=
  { name := name, size_bytes := size_bytes }

/-- Model of `ComputeConfiguration` (builder.rs lines 100-120); `PathBuf`
is modelled as a string. -/
structure ComputeConfiguration where
  entry_points : List String
  passes : Option (List PassDescription)
  custom_uniform_size : Option Nat
  has_input_texture : Bool
  has_mouse : Bool
  has_fonts : Bool
  has_audio : Bool
  has_atomic_buffer : Bool
  audio_buffer_size : Nat
  has_audio_spectrum : Bool
  audio_spectrum_size : Nat
  storage_buffers : List StorageBufferSpec
  workgroup_size : Nat × Nat × Nat
  dispatch_once : Bool
  texture_format : TexFormat
  label : String
  num_channels : Option Nat
  hot_reload_path : Option String
deriving DecidableEq, Repr

/-- Model of `ComputeShaderBuilder` (builder.rs lines 150-152). -/
structure ComputeShaderBuilder where
  config : ComputeConfiguration
deriving DecidableEq, Repr

namespace ComputeShaderBuilder

/-- Model of `ComputeShaderBuilder::new` (builder.rs lines 155-178) with
the source's defaults. -/
def new : ComputeShaderBuilder :=
  { config :=
    { entry_points := ["main"]
      passes := none
      custom_uniform_size := none
      has_input_texture := false
      has_mouse := false
      has_fonts := false
      has_audio := false
      has_atomic_buffer := false
      audio_buffer_size := 1024
      has_audio_spectrum := false
      audio_spectrum_size := 128
      storage_buffers := []
      workgroup_size := (16, 16, 1)
      dispatch_once := false
      texture_format := TexFormat.Rgba16Float
      label := "Compute Shader"
      num_channels := none
      hot_reload_path := none } }

/-- Model of `with_entry_point` (builder.rs lines 182-185). -/
def with_entry_point (b : ComputeShaderBuilder) (entry_point : String) :
    ComputeShaderBuilder :=
  { b with config := { b.config with entry_points := [entry_point] } }

/-- Model of `with_multi_pass` (builder.rs lines 195-199): store the pass
list and derive `entry_points` from the pass names, in order. -/
def with_multi_pass (b : ComputeShaderBuilder)
    (passes : List PassDescription) : ComputeShaderBuilder :=
  { b with config :=
    { b.config with
        passes := some passes
        entry_points := passes.map (fun p => p.name) } }

/-- Model of `build` (builder.rs lines 318-320): hand the accumulated
configuration back unchanged, with no validation. -/
def build (b : ComputeShaderBuilder) : ComputeConfiguration :=
  b.config

end ComputeShaderBuilder

/-- Invariant: the two physical sides of every tracked buffer are distinct
resources (they come from two separate `create_texture` calls). -/
def SidesDistinct (m : MultiPassManager) : Prop :=
  ∀ name p, findA m.buffers name = some p → p.1.id ≠ p.2.id

/-- The manager states reachable through the public lifecycle: construction
by `new`, then any interleaving of `mark_written`, `flip_buffers`,
`clear_all` and `resize` (the latter two with an arbitrary device
counter). -/
inductive Reachable : MultiPassManager → Prop where
  | init (width height : Nat) (names : List String) (fmt : TexFormat)
      (c : Nat) : Reachable (MultiPassManager.new width height names fmt c).1
  | mark (m : MultiPassManager) (name : String) : Reachable m →
      Reachable (m.mark_written name)
  | flip (m : MultiPassManager) : Reachable m → Reachable m.flip_buffers
  | clearStep (m m' : MultiPassManager) (c c' : Nat) : Reachable m →
      m.clear_all c = some (m', c') → Reachable m'
  | resizeStep (m m' : MultiPassManager) (c c' w h : Nat) : Reachable m →
      m.resize c w h = some (m', c') → Reachable m'

/-- A concrete manager used by the witnesses: two tracked buffers, built
on a fresh device. -/
def sampleManager : MultiPassManager :=
  (MultiPassManager.new 4 4 ["a", "b"] TexFormat.Rgba16Float 0).1

/-- The device counter left behind by building `sampleManager`. -/
def sampleCounter : Nat :=
  (MultiPassManager.new 4 4 ["a", "b"] TexFormat.Rgba16Float 0).2

/-- Result of clearing `sampleManager` at device counter 100 (the
`getD` fallback is never taken; the lookup succeeds by computation). -/
def sampleCleared : MultiPassManager × Nat :=
  (sampleManager.clear_all 100).getD (sampleManager, 0)

/-- Result of resizing `sampleManager` to 8 by 2 at device counter 100. -/
def sampleResized : MultiPassManager × Nat :=
  (sampleManager.resize 100 8 2).getD (sampleManager, 0)

/-- Fallback texture pair for total lookups in witness statements. -/
def fallbackPair : Texture × Texture :=
  ({ id := 0, width := 0, height := 0, format := TexFormat.Rgba16Float,
     label := "" },
   { id := 0, width := 0, height := 0, format := TexFormat.Rgba16Float,
     label := "" })

@[simp] theorem findA_nil {α : Type} (k : String) :
    findA ([] : List (String × α)) k = none := rfl

@[simp] theorem findA_cons {α : Type} (k' k : String) (v : α)
    (t : List (String × α)) :
    findA ((k', v) :: t) k = if k' = k then some v else findA t k := rfl

@[simp] theorem insertA_nil {α : Type} (k : String) (v : α) :
    insertA ([] : List (String × α)) k v = [(k, v)] := rfl

@[simp] theorem insertA_cons {α : Type} (k' k : String) (v' v : α)
    (t : List (String × α)) :
    insertA ((k', v') :: t) k v =
      if k' = k then (k', v) :: t else (k', v') :: insertA t k v := rfl

@[simp] theorem modifyA_nil {α : Type} (k : String) (f : α → α) :
    modifyA ([] : List (String × α)) k f = [] := rfl

@[simp] theorem modifyA_cons {α : Type} (k' k : String) (v : α)
    (t : List (String × α)) (f : α → α) :
    modifyA ((k', v) :: t) k f =
      if k' = k then (k', f v) :: t else (k', v) :: modifyA t k f := rfl

@[simp] theorem keysA_nil {α : Type} : keysA ([] : List (String × α)) = [] := rfl

@[simp] theorem keysA_cons {α : Type} (p : String × α) (t : List (String × α)) :
    keysA (p :: t) = p.1 :: keysA t := rfl

theorem findA_modifyA_self {α : Type} (l : List (String × α)) (k : String)
    (f : α → α) : findA (modifyA l k f) k = (findA l k).map f := by
  induction l with
  | nil => rfl
  | cons p t ih =>
    obtain ⟨k', v⟩ := p
    by_cases h : k' = k <;> simp [modifyA, findA, h, ih]

theorem findA_modifyA_ne {α : Type} (l : List (String × α)) (k k' : String)
    (f : α → α) (hne : k ≠ k') : findA (modifyA l k f) k' = findA l k' := by
  induction l with
  | nil => rfl
  | cons p t ih =>
    obtain ⟨k₀, v⟩ := p
    rw [modifyA_cons]
    by_cases h : k₀ = k
    · rw [if_pos h, findA_cons, findA_cons]
      have hk' : ¬k₀ = k' := fun hc => hne (h.symm.trans hc)
      rw [if_neg hk', if_neg hk']
    · rw [if_neg h, findA_cons, findA_cons]
      by_cases h' : k₀ = k'
      · rw [if_pos h', if_pos h']
      · rw [if_neg h', if_neg h']
        exact ih

theorem modifyA_of_not_mem {α : Type} (l : List (String × α)) (k : String)
    (f : α → α) (h : findA l k = none) : modifyA l k f = l := by
  induction l with
  | nil => rfl
  | cons p t ih =>
    obtain ⟨k', v⟩ := p
    by_cases hk : k' = k
    · simp [findA, hk] at h
    · simp [findA, hk] at h
      simp [modifyA, hk, ih h]

theorem keysA_modifyA {α : Type} (l : List (String × α)) (k : String)
    (f : α → α) : keysA (modifyA l k f) = keysA l := by
  induction l with
  | nil => rfl
  | cons p t ih =>
    obtain ⟨k', v⟩ := p
    rw [modifyA_cons]
    by_cases h : k' = k
    · rw [if_pos h, keysA_cons, keysA_cons]
    · rw [if_neg h, keysA_cons, keysA_cons, ih]

theorem findA_insertA_self {α : Type} (l : List (String × α)) (k : String)
    (v : α) : findA (insertA l k v) k = some v := by
  induction l with
  | nil => simp [insertA, findA]
  | cons p t ih =>
    obtain ⟨k', v'⟩ := p
    by_cases h : k' = k <;> simp [insertA, findA, h, ih]

theorem findA_insertA_ne {α : Type} (l : List (String × α)) (k k' : String)
    (v : α) (hne : k ≠ k') : findA (insertA l k v) k' = findA l k' := by
  induction l with
  | nil =>
    rw [insertA_nil, findA_cons, findA_nil, if_neg hne]
  | cons p t ih =>
    obtain ⟨k₀, v₀⟩ := p
    rw [insertA_cons]
    by_cases h : k₀ = k
    · rw [if_pos h, findA_cons, findA_cons]
      have hk' : ¬k₀ = k' := fun hc => hne (h.symm.trans hc)
      rw [if_neg hk', if_neg hk']
    · rw [if_neg h, findA_cons, findA_cons]
      by_cases h' : k₀ = k'
      · rw [if_pos h', if_pos h']
      · rw [if_neg h', if_neg h']
        exact ih

theorem keysA_insertA {α : Type} (l : List (String × α)) (k : String)
    (v : α) :
    keysA (insertA l k v) = if k ∈ keysA l then keysA l else keysA l ++ [k] := by
  induction l with
  | nil => simp [insertA]
  | cons p t ih =>
    obtain ⟨k₀, v₀⟩ := p
    by_cases h : k₀ = k
    · subst h
      simp [insertA]
    · have hne : ¬k = k₀ := fun heq => h heq.symm
      by_cases hmem : k ∈ keysA t
      · simp [insertA, h, ih, hmem, hne]
      · simp [insertA, h, ih, hmem, hne]

theorem mem_keysA_insertA {α : Type} (l : List (String × α)) (k k' : String)
    (v : α) : k' ∈ keysA (insertA l k v) ↔ k' = k ∨ k' ∈ keysA l := by
  rw [keysA_insertA]
  by_cases hmem : k ∈ keysA l
  · rw [if_pos hmem]
    constructor
    · exact Or.inr
    · rintro (heq | hm)
      · rw [heq]
        exact hmem
      · exact hm
  · rw [if_neg hmem]
    simp only [List.mem_append, List.mem_singleton]
    tauto

theorem nodup_keysA_insertA {α : Type} (l : List (String × α)) (k : String)
    (v : α) (h : (keysA l).Nodup) : (keysA (insertA l k v)).Nodup := by
  rw [keysA_insertA]
  by_cases hmem : k ∈ keysA l
  · simpa [hmem] using h
  · simp [hmem]
    exact List.Nodup.append h (List.nodup_singleton k)
      (by simpa [List.disjoint_singleton] using hmem)

theorem findA_eq_none_iff_not_mem_keysA {α : Type} (l : List (String × α))
    (k : String) : findA l k = none ↔ k ∉ keysA l := by
  induction l with
  | nil => simp
  | cons p t ih =>
    obtain ⟨k₀, v₀⟩ := p
    rw [findA_cons, keysA_cons, List.mem_cons]
    by_cases h : k₀ = k
    · subst h
      simp
    · rw [if_neg h, ih]
      constructor
      · rintro hn (hc | hc)
        · exact h hc.symm
        · exact hn hc
      · intro hn hc
        exact hn (Or.inr hc)

theorem findA_isSome_iff_mem_keysA {α : Type} (l : List (String × α))
    (k : String) : (findA l k).isSome ↔ k ∈ keysA l := by
  rcases h : findA l k with _ | v
  · simp only [Option.isSome_none, Bool.false_eq_true, false_iff]
    exact (findA_eq_none_iff_not_mem_keysA l k).1 h
  · simp only [Option.isSome_some, true_iff]
    by_contra hnot
    rw [(findA_eq_none_iff_not_mem_keysA l k).2 hnot] at h
    exact Option.noConfusion h

theorem findA_map_value {α β : Type} (g : α → β) (l : List (String × α))
    (k : String) :
    findA (l.map (fun p => (p.1, g p.2))) k = (findA l k).map g := by
  induction l with
  | nil => rfl
  | cons p t ih =>
    obtain ⟨k₀, v₀⟩ := p
    rw [List.map_cons, findA_cons, findA_cons]
    by_cases h : k₀ = k
    · rw [if_pos h, if_pos h]
      rfl
    · rw [if_neg h, if_neg h, ih]

theorem keysA_map_value {α β : Type} (g : α → β) (l : List (String × α)) :
    keysA (l.map (fun p => (p.1, g p.2))) = keysA l := by
  induction l with
  | nil => rfl
  | cons p t ih =>
    rw [List.map_cons, keysA_cons, keysA_cons, ih]

theorem findA_map_false (l : List (String × Bool)) (k : String) :
    findA (l.map (fun p => (p.1, false))) k =
      (findA l k).map (fun _ => false) := by
  induction l with
  | nil => rfl
  | cons p t ih =>
    obtain ⟨k₀, v₀⟩ := p
    rw [List.map_cons, findA_cons, findA_cons]
    by_cases h : k₀ = k
    · rw [if_pos h, if_pos h]
      rfl
    · rw [if_neg h, if_neg h, ih]

theorem keysA_map_false (l : List (String × Bool)) :
    keysA (l.map (fun p => (p.1, false))) = keysA l := by
  induction l with
  | nil => rfl
  | cons p t ih =>
    rw [List.map_cons, keysA_cons, keysA_cons, ih]

theorem findA_map_not (l : List (String × Bool)) (k : String) :
    findA (l.map (fun p => (p.1, !p.2))) k =
      (findA l k).map (fun b => !b) := by
  induction l with
  | nil => rfl
  | cons p t ih =>
    obtain ⟨k₀, v₀⟩ := p
    rw [List.map_cons, findA_cons, findA_cons]
    by_cases h : k₀ = k
    · rw [if_pos h, if_pos h]
      rfl
    · rw [if_neg h, if_neg h, ih]

theorem keysA_map_not (l : List (String × Bool)) :
    keysA (l.map (fun p => (p.1, !p.2))) = keysA l := by
  induction l with
  | nil => rfl
  | cons p t ih =>
    rw [List.map_cons, keysA_cons, keysA_cons, ih]

/-- Claim C6: `with_multi_pass` stores the pass list and derives the entry
points from the pass names in declaration order, overriding any earlier
`with_entry_point`; the two builder calls do not commute, the last
relevant call determines the built entry points. -/
theorem claim_C6_with_multi_pass_dominant :
    ∀ (b : ComputeShaderBuilder) (P : List PassDescription)
      (e : String),
      ((b.with_multi_pass P).config.passes = some P ∧
        (b.with_multi_pass P).config.entry_points =
          P.map (fun p => p.name)) ∧
      (((b.with_entry_point e).with_multi_pass P).build.entry_points =
          P.map (fun p => p.name) ∧
        ((b.with_multi_pass P).with_entry_point e).build.entry_points =
          [e]) ∧
      ((ComputeShaderBuilder.new.with_entry_point "other"
          |>.with_multi_pass [PassDescription.new "pass0" []]
          |>.build.entry_points) ≠
        (ComputeShaderBuilder.new.with_multi_pass
            [PassDescription.new "pass0" []]
          |>.with_entry_point "other"
          |>.build.entry_points)) := by
  intro b P e
  refine ⟨⟨rfl, rfl⟩, ⟨rfl, rfl⟩, ?_⟩
  decide

/-- Claim C8: `PassDescription::new` stores its inputs verbatim, at any
length, with no dispatch override; `build` validates nothing, so a pass
with more than three inputs survives to the built configuration, and a
referenced name no pass produces only surfaces later as a failed lookup
in the manager. -/
theorem claim_C8_unvalidated_inputs :
    ∀ (name : String) (inputs : List String),
      ((PassDescription.new name inputs).name = name ∧
        (PassDescription.new name inputs).inputs = inputs ∧
        (PassDescription.new name inputs).workgroup_size = none) ∧
      (∀ b : ComputeShaderBuilder, b.build = b.config) ∧
      ((ComputeShaderBuilder.new.with_multi_pass
          [PassDescription.new "p" ["a", "b", "c", "d"]]).build.passes =
        some [PassDescription.new "p" ["a", "b", "c", "d"]]) ∧
      ((MultiPassManager.new 4 4 ["p"] TexFormat.Rgba16Float 0).1
          |>.get_read_texture "d") = none := by
  intro name inputs
  refine ⟨⟨rfl, rfl, rfl⟩, fun b => rfl, rfl, ?_⟩
  decide

/-- Claim C10: `mark_written` on an untracked name is a silent no-op that
changes nothing and inserts nothing, and `get_write_side` on an untracked
name returns `false`; by contrast read/write resolution on an untracked
name is fatal (`none`). -/
theorem claim_C10_mark_written_untracked_noop :
    ∀ (m : MultiPassManager) (name : String),
      (findA m.write_side name = none →
        m.mark_written name = m ∧ m.get_write_side name = false) ∧
      (findA m.buffers name = none →
        m.get_read_texture name = none ∧
          m.get_write_texture name = none) ∧
      (findA m.bind_groups name = none →
        m.get_write_bind_group name = none) := by
  intro m name
  refine ⟨fun h => ⟨?_, ?_⟩, fun h => ⟨?_, ?_⟩, fun h => ?_⟩
  · show { m with write_side := modifyA m.write_side name (fun b => !b) } = m
    rw [modifyA_of_not_mem m.write_side name _ h]
  · show (findA m.write_side name).getD false = false
    rw [h]
    rfl
  · show MultiPassManager.get_read_texture m name = none
    unfold MultiPassManager.get_read_texture
    rw [h]
  · show MultiPassManager.get_write_texture m name = none
    unfold MultiPassManager.get_write_texture
    rw [h]
  · show MultiPassManager.get_write_bind_group m name = none
    unfold MultiPassManager.get_write_bind_group
    rw [h]

/-- Witness for claim C10 at a concrete manager and the untracked name
"zz". -/
theorem claim_C10_witness :
    (sampleManager.mark_written "zz" = sampleManager ∧
      sampleManager.get_write_side "zz" = false) ∧
    (sampleManager.get_read_texture "zz" = none ∧
      sampleManager.get_write_texture "zz" = none) ∧
    sampleManager.get_write_bind_group "zz" = none :=
  ⟨(claim_C10_mark_written_untracked_noop sampleManager "zz").1 (by decide),
   (claim_C10_mark_written_untracked_noop sampleManager "zz").2.1 (by decide),
   (claim_C10_mark_written_untracked_noop sampleManager "zz").2.2 (by decide)⟩

theorem decide_succ_mod_two (n : Nat) :
    decide ((n + 1) % 2 = 1) = !decide (n % 2 = 1) := by
  rcases Nat.mod_two_eq_zero_or_one n with h | h <;> simp [Nat.add_mod, h]

theorem mark_written_buffers (m : MultiPassManager) (name : String) :
    (m.mark_written name).buffers = m.buffers := rfl

theorem mark_written_write_side (m : MultiPassManager) (name : String) :
    (m.mark_written name).write_side =
      modifyA m.write_side name (fun b => !b) := rfl

theorem iterate_mark_written_find (name : String) (b : Bool) :
    ∀ (n : Nat) (m : MultiPassManager),
      findA m.write_side name = some b →
      findA (((fun x => MultiPassManager.mark_written x name)^[n]) m).write_side
          name = some (Bool.xor b (decide (n % 2 = 1))) := by
  intro n
  induction n with
  | zero =>
    intro m hm
    simpa using hm
  | succ k ih =>
    intro m hm
    rw [Function.iterate_succ_apply']
    rw [mark_written_write_side, findA_modifyA_self, ih m hm]
    have hx : ∀ (x y : Bool), (!(Bool.xor x y)) = Bool.xor x (!y) := by
      intro x y
      cases x <;> cases y <;> rfl
    rw [Option.map_some', decide_succ_mod_two, hx]

/-- Claim C2: N successive commits to one buffer leave its bit at the
initial value xor the parity of N; a single commit flips exactly that
buffer's bit and nothing else, and after a commit the side `read` resolves
is exactly the side `write` resolved before the commit. -/
theorem claim_C2_commit_parity :
    ∀ (m : MultiPassManager) (name : String) (b : Bool) (n : Nat),
      (findA m.write_side name = some b →
        findA (((fun x => MultiPassManager.mark_written x name)^[n])
            m).write_side name =
          some (Bool.xor b (decide (n % 2 = 1)))) ∧
      (∀ other, other ≠ name →
        findA (m.mark_written name).write_side other =
          findA m.write_side other) ∧
      ((m.mark_written name).buffers = m.buffers ∧
        (m.mark_written name).bind_groups = m.bind_groups ∧
        (m.mark_written name).output_texture = m.output_texture ∧
        (m.mark_written name).output_bind_group = m.output_bind_group ∧
        (m.mark_written name).width = m.width ∧
        (m.mark_written name).height = m.height) ∧
      (findA m.write_side name ≠ none →
        (m.mark_written name).get_read_texture name =
          m.get_write_texture name) := by
  intro m name b n
  refine ⟨iterate_mark_written_find name b n m, ?_, ⟨rfl, rfl, rfl, rfl, rfl, rfl⟩, ?_⟩
  · intro other hne
    rw [mark_written_write_side]
    exact findA_modifyA_ne m.write_side name other _ (fun h => hne h.symm)
  · intro hsome
    obtain ⟨ws, hws⟩ : ∃ ws, findA m.write_side name = some ws := by
      cases hf : findA m.write_side name with
      | none => exact absurd hf hsome
      | some w => exact ⟨w, rfl⟩
    unfold MultiPassManager.get_read_texture MultiPassManager.get_write_texture
    rw [mark_written_buffers]
    cases hb : findA m.buffers name with
    | none => rfl
    | some p =>
      rw [mark_written_write_side, findA_modifyA_self, hws, Option.map_some',
        Option.getD_some, Option.getD_some]
      cases ws <;> rfl

/-- Witness for claim C2 at a concrete manager, buffer "a", initial bit
`false`, and three commits. -/
theorem claim_C2_witness :
    findA (((fun x => MultiPassManager.mark_written x "a")^[3])
        sampleManager).write_side "a" =
      some (Bool.xor false (decide (3 % 2 = 1))) ∧
    (sampleManager.mark_written "a").get_read_texture "a" =
      sampleManager.get_write_texture "a" :=
  ⟨(claim_C2_commit_parity sampleManager "a" false 3).1 (by decide),
   (claim_C2_commit_parity sampleManager "a" false 3).2.2.2 (by decide)⟩

theorem clearTextures_spec (w h : Nat) (f : TexFormat) :
    ∀ (l : List (String × (Texture × Texture))) (c : Nat),
      keysA (MultiPassManager.clearTextures w h f l c).1 = keysA l ∧
      c ≤ (MultiPassManager.clearTextures w h f l c).2 ∧
      (∀ name p,
        findA (MultiPassManager.clearTextures w h f l c).1 name = some p →
        c ≤ p.1.id ∧ p.1.id + 1 = p.2.id ∧
        p.2.id < (MultiPassManager.clearTextures w h f l c).2 ∧
        p.1.width = w ∧ p.1.height = h ∧ p.1.format = f ∧
        p.2.width = w ∧ p.2.height = h ∧ p.2.format = f) := by
  intro l
  induction l with
  | nil =>
    intro c
    refine ⟨rfl, Nat.le_refl c, ?_⟩
    intro name p hp
    simp [MultiPassManager.clearTextures] at hp
  | cons hd t ih =>
    obtain ⟨name₀, pr₀⟩ := hd
    intro c
    obtain ⟨ihk, ihc, ihf⟩ := ih (c + 1 + 1)
    simp only [MultiPassManager.clearTextures, create_storage_texture]
    refine ⟨?_, ?_, ?_⟩
    · rw [keysA_cons, keysA_cons, ihk]
    · omega
    · intro name p hp
      rw [findA_cons] at hp
      by_cases hn : name₀ = name
      · rw [if_pos hn] at hp
        obtain rfl := Option.some.inj hp
        refine ⟨Nat.le_refl c, rfl, ?_, rfl, rfl, rfl, rfl, rfl, rfl⟩
        dsimp only
        omega
      · rw [if_neg hn] at hp
        obtain ⟨h1, h2, h3, h4⟩ := ihf name p hp
        exact ⟨by omega, h2, h3, h4⟩

theorem clearBindGroups_spec (layout : BGLayout)
    (bufs : List (String × (Texture × Texture))) :
    ∀ (l : List (String × (BindGroup × BindGroup))) (c : Nat)
      (res : List (String × (BindGroup × BindGroup))) (c'' : Nat),
      MultiPassManager.clearBindGroups layout bufs l c = some (res, c'') →
      keysA res = keysA l ∧ c ≤ c'' ∧
      (∀ name q, findA res name = some q →
        c ≤ q.1.id ∧ q.1.id + 1 = q.2.id ∧ q.2.id < c'' ∧
        q.1.layout = layout ∧ q.2.layout = layout ∧
        ∃ p, findA bufs name = some p ∧
          q.1.textureId = p.1.id ∧ q.2.textureId = p.2.id) := by
  intro l
  induction l with
  | nil =>
    intro c res c'' hres
    simp only [MultiPassManager.clearBindGroups, Option.some.injEq,
      Prod.mk.injEq] at hres
    obtain ⟨hr, hc⟩ := hres
    subst hr
    subst hc
    refine ⟨rfl, Nat.le_refl c, ?_⟩
    intro name q hq
    simp at hq
  | cons hd t ih =>
    obtain ⟨name₀, q₀⟩ := hd
    intro c res c'' hres
    cases hf : findA bufs name₀ with
    | none =>
      simp only [MultiPassManager.clearBindGroups, hf] at hres
      exact Option.noConfusion hres
    | some p =>
      cases hrec : MultiPassManager.clearBindGroups layout bufs t (c + 1 + 1) with
      | none =>
        simp only [MultiPassManager.clearBindGroups, hf,
          create_storage_bind_group, hrec] at hres
        exact Option.noConfusion hres
      | some tailpair =>
        obtain ⟨tail, tc⟩ := tailpair
        simp only [MultiPassManager.clearBindGroups, hf,
          create_storage_bind_group, hrec, Option.some.injEq,
          Prod.mk.injEq] at hres
        obtain ⟨hr, hc⟩ := hres
        subst hr
        subst hc
        obtain ⟨ihk, ihc, ihf⟩ := ih (c + 1 + 1) tail tc hrec
        refine ⟨?_, ?_, ?_⟩
        · rw [keysA_cons, keysA_cons, ihk]
        · omega
        · intro name q hq
          rw [findA_cons] at hq
          by_cases hn : name₀ = name
          · rw [if_pos hn] at hq
            obtain rfl := Option.some.inj hq
            subst hn
            refine ⟨Nat.le_refl c, rfl, by dsimp only; omega, rfl, rfl, p,
              hf, rfl, rfl⟩
          · rw [if_neg hn] at hq
            obtain ⟨h1, h2, h3, h4⟩ := ihf name q hq
            exact ⟨by omega, h2, h3, h4⟩

theorem clear_all_spec (m : MultiPassManager) (c : Nat)
    (m' : MultiPassManager) (c' : Nat) (hc : m.clear_all c = some (m', c')) :
    (keysA m'.buffers = keysA m.buffers ∧
      keysA m'.bind_groups = keysA m.bind_groups ∧
      m'.write_side = m.write_side.map (fun p => (p.1, false)) ∧
      m'.width = m.width ∧ m'.height = m.height ∧
      m'.texture_format = m.texture_format ∧
      m'.storage_layout = m.storage_layout ∧
      m'.input_layout = m.input_layout) ∧
    (∀ name p, findA m'.buffers name = some p →
      c ≤ p.1.id ∧ p.1.id + 1 = p.2.id ∧
      p.1.width = m.width ∧ p.1.height = m.height ∧
      p.1.format = m.texture_format ∧
      p.2.width = m.width ∧ p.2.height = m.height ∧
      p.2.format = m.texture_format) ∧
    (∀ name q, findA m'.bind_groups name = some q →
      c ≤ q.1.id ∧ q.1.id + 1 = q.2.id ∧
      q.1.layout = m.storage_layout ∧ q.2.layout = m.storage_layout ∧
      ∃ p, findA m'.buffers name = some p ∧
        q.1.textureId = p.1.id ∧ q.2.textureId = p.2.id) ∧
    (c ≤ m'.output_texture.id ∧ c ≤ m'.output_bind_group.id ∧
      m'.output_texture.width = m.width ∧
      m'.output_texture.height = m.height ∧
      m'.output_texture.format = m.texture_format ∧
      m'.output_bind_group.textureId = m'.output_texture.id) := by
  obtain ⟨htk, htc, htf⟩ :=
    clearTextures_spec m.width m.height m.texture_format m.buffers c
  cases hbg : MultiPassManager.clearBindGroups m.storage_layout
      (MultiPassManager.clearTextures m.width m.height m.texture_format
        m.buffers c).1
      m.bind_groups
      (MultiPassManager.clearTextures m.width m.height m.texture_format
        m.buffers c).2 with
  | none =>
    simp only [MultiPassManager.clear_all, hbg] at hc
    exact Option.noConfusion hc
  | some bgs =>
    obtain ⟨bglist, bc⟩ := bgs
    obtain ⟨bhk, bhc, bhf⟩ := clearBindGroups_spec m.storage_layout
      (MultiPassManager.clearTextures m.width m.height m.texture_format
        m.buffers c).1
      m.bind_groups
      (MultiPassManager.clearTextures m.width m.height m.texture_format
        m.buffers c).2 bglist bc hbg
    simp only [MultiPassManager.clear_all, hbg, create_storage_texture,
      create_storage_bind_group, Option.some.injEq, Prod.mk.injEq] at hc
    obtain ⟨hm, hcc⟩ := hc
    subst hm
    subst hcc
    refine ⟨⟨htk, bhk, rfl, rfl, rfl, rfl, rfl, rfl⟩, ?_, ?_, ?_⟩
    · intro name p hp
      obtain ⟨h1, h2, h3, h4⟩ := htf name p hp
      exact ⟨h1, h2, h4⟩
    · intro name q hq
      obtain ⟨h1, h2, h3, h4, h5, hex⟩ := bhf name q hq
      exact ⟨by omega, h2, h4, h5, hex⟩
    · refine ⟨?_, ?_, rfl, rfl, rfl, rfl⟩ <;> dsimp only <;> omega

theorem get_read_texture_isSome (m : MultiPassManager) (name : String) :
    (m.get_read_texture name).isSome = (findA m.buffers name).isSome := by
  unfold MultiPassManager.get_read_texture
  cases h : findA m.buffers name with
  | none => rfl
  | some p =>
    dsimp only
    cases (findA m.write_side name).getD false <;> rfl

theorem get_write_texture_isSome (m : MultiPassManager) (name : String) :
    (m.get_write_texture name).isSome = (findA m.buffers name).isSome := by
  unfold MultiPassManager.get_write_texture
  cases h : findA m.buffers name with
  | none => rfl
  | some p =>
    dsimp only
    cases (findA m.write_side name).getD false <;> rfl

theorem get_write_bind_group_isSome (m : MultiPassManager) (name : String) :
    (m.get_write_bind_group name).isSome =
      (findA m.bind_groups name).isSome := by
  unfold MultiPassManager.get_write_bind_group
  cases h : findA m.bind_groups name with
  | none => rfl
  | some q =>
    dsimp only
    cases (findA m.write_side name).getD false <;> rfl

theorem findA_isSome_congr_keys {α β : Type} (l : List (String × α))
    (l' : List (String × β)) (h : keysA l = keysA l') (k : String) :
    (findA l k).isSome = (findA l' k).isSome := by
  by_cases hm : k ∈ keysA l'
  · rw [(findA_isSome_iff_mem_keysA l k).2 (h ▸ hm),
      (findA_isSome_iff_mem_keysA l' k).2 hm]
  · have h1 : ¬(findA l k).isSome = true := fun hs =>
      hm (h ▸ (findA_isSome_iff_mem_keysA l k).1 hs)
    have h2 : ¬(findA l' k).isSome = true := fun hs =>
      hm ((findA_isSome_iff_mem_keysA l' k).1 hs)
    rw [Bool.not_eq_true] at h1 h2
    rw [h1, h2]

/-- Claim C7: read/write resolution fails fatally (modelled `none`) exactly
when the name is unregistered in the corresponding map, and for a
registered name it keeps succeeding, including right after `clear_all`. -/
theorem claim_C7_lookup_fatal_iff_unregistered :
    ∀ (m : MultiPassManager) (name : String),
      (m.get_read_texture name = none ↔ findA m.buffers name = none) ∧
      (m.get_write_texture name = none ↔ findA m.buffers name = none) ∧
      (m.get_write_bind_group name = none ↔
        findA m.bind_groups name = none) ∧
      (∀ c m' c', m.clear_all c = some (m', c') →
        (m'.get_read_texture name).isSome =
            (m.get_read_texture name).isSome ∧
          (m'.get_write_bind_group name).isSome =
            (m.get_write_bind_group name).isSome) := by
  intro m name
  refine ⟨?_, ?_, ?_, ?_⟩
  · rw [← Option.not_isSome_iff_eq_none, ← Option.not_isSome_iff_eq_none,
      get_read_texture_isSome]
  · rw [← Option.not_isSome_iff_eq_none, ← Option.not_isSome_iff_eq_none,
      get_write_texture_isSome]
  · rw [← Option.not_isSome_iff_eq_none, ← Option.not_isSome_iff_eq_none,
      get_write_bind_group_isSome]
  · intro c m' c' hc
    obtain ⟨⟨hk1, hk2, _⟩, _⟩ := clear_all_spec m c m' c' hc
    constructor
    · rw [get_read_texture_isSome, get_read_texture_isSome]
      exact findA_isSome_congr_keys m'.buffers m.buffers hk1 name
    · rw [get_write_bind_group_isSome, get_write_bind_group_isSome]
      exact findA_isSome_congr_keys m'.bind_groups m.bind_groups hk2 name

/-- Witness for claim C7 at a concrete manager, the tracked name "a" and
the untracked name "zz", including after a concrete `clear_all`. -/
theorem claim_C7_witness :
    (sampleManager.get_read_texture "zz" = none ↔
      findA sampleManager.buffers "zz" = none) ∧
    (sampleManager.get_write_bind_group "a" = none ↔
      findA sampleManager.bind_groups "a" = none) ∧
    (sampleCleared.1.get_read_texture "a").isSome =
      (sampleManager.get_read_texture "a").isSome :=
  ⟨(claim_C7_lookup_fatal_iff_unregistered sampleManager "zz").1,
   (claim_C7_lookup_fatal_iff_unregistered sampleManager "a").2.2.1,
   ((claim_C7_lookup_fatal_iff_unregistered sampleManager "a").2.2.2 100
      sampleCleared.1 sampleCleared.2 (by rfl)).1⟩

/-- Claim C4: `clear_all` keeps the tracked names, the dimensions and the
format, resets every write-side bit to `false`, and recreates both sides
of every buffer, both bind groups, and the output resources, all with
fresh identities at or above the incoming device counter — in particular
different from every resource that existed before. -/
theorem claim_C4_clear_all_recreates :
    ∀ (m : MultiPassManager) (c : Nat) (m' : MultiPassManager) (c' : Nat),
      m.clear_all c = some (m', c') →
      (keysA m'.buffers = keysA m.buffers ∧
        keysA m'.bind_groups = keysA m.bind_groups ∧
        keysA m'.write_side = keysA m.write_side ∧
        m'.width = m.width ∧ m'.height = m.height ∧
        m'.texture_format = m.texture_format) ∧
      (∀ name, m'.get_write_side name = false) ∧
      (∀ name p, findA m'.buffers name = some p →
        c ≤ p.1.id ∧ c ≤ p.2.id ∧ p.1.id ≠ p.2.id ∧
        p.1.width = m.width ∧ p.1.height = m.height ∧
        p.1.format = m.texture_format ∧ p.2.width = m.width ∧
        p.2.height = m.height ∧ p.2.format = m.texture_format) ∧
      (∀ name q, findA m'.bind_groups name = some q →
        c ≤ q.1.id ∧ c ≤ q.2.id ∧ q.1.id ≠ q.2.id) ∧
      (c ≤ m'.output_texture.id ∧ c ≤ m'.output_bind_group.id ∧
        m'.output_texture.width = m.width ∧
        m'.output_texture.height = m.height ∧
        m'.output_texture.format = m.texture_format) ∧
      (∀ name p p₀, findA m'.buffers name = some p →
        findA m.buffers name = some p₀ →
        p₀.1.id < c → p₀.2.id < c →
        p.1 ≠ p₀.1 ∧ p.1 ≠ p₀.2 ∧ p.2 ≠ p₀.1 ∧ p.2 ≠ p₀.2) := by
  intro m c m' c' hc
  obtain ⟨⟨hk1, hk2, hws, hw, hh, hf, _, _⟩, hbuf, hbg, hout⟩ :=
    clear_all_spec m c m' c' hc
  refine ⟨⟨hk1, hk2, ?_, hw, hh, hf⟩, ?_, ?_, ?_, ?_, ?_⟩
  · rw [hws, keysA_map_false]
  · intro name
    show (findA m'.write_side name).getD false = false
    rw [hws, findA_map_false]
    cases findA m.write_side name <;> rfl
  · intro name p hp
    obtain ⟨h1, h2, h3⟩ := hbuf name p hp
    exact ⟨h1, by omega, by omega, h3⟩
  · intro name q hq
    obtain ⟨h1, h2, _⟩ := hbg name q hq
    exact ⟨h1, by omega, by omega⟩
  · exact ⟨hout.1, hout.2.1, hout.2.2.1, hout.2.2.2.1, hout.2.2.2.2.1⟩
  · intro name p p₀ hp hp₀ hlt1 hlt2
    obtain ⟨h1, h2, _⟩ := hbuf name p hp
    refine ⟨fun heq => ?_, fun heq => ?_, fun heq => ?_, fun heq => ?_⟩
    · rw [heq] at h1
      omega
    · rw [heq] at h1
      omega
    · have : c ≤ p.2.id := by omega
      rw [heq] at this
      omega
    · have : c ≤ p.2.id := by omega
      rw [heq] at this
      omega

/-- Witness for claim C4 at a concrete manager cleared at device
counter 100. -/
theorem claim_C4_witness :
    keysA sampleCleared.1.buffers = keysA sampleManager.buffers ∧
    sampleCleared.1.get_write_side "a" = false ∧
    100 ≤ sampleCleared.1.output_texture.id := by
  obtain ⟨hstruct, hside, hbuf, hbg, hout, hfresh⟩ :=
    claim_C4_clear_all_recreates sampleManager 100 sampleCleared.1
      sampleCleared.2 (by rfl)
  exact ⟨hstruct.1, hside "a", hout.1⟩

/-- Claim C5: `resize` is exactly "store the new dimensions, then
`clear_all`"; consequently every tracked resource and binding set is newly
created at the new dimensions, every bit is reset, and previously held
binding sets (ids below the incoming counter) are never returned again. -/
theorem claim_C5_resize_is_store_then_clear :
    ∀ (m : MultiPassManager) (c w h : Nat),
      (m.resize c w h =
        MultiPassManager.clear_all { m with width := w, height := h } c) ∧
      (∀ m' c', m.resize c w h = some (m', c') →
        m'.width = w ∧ m'.height = h ∧
        (∀ name, m'.get_write_side name = false) ∧
        (∀ name p, findA m'.buffers name = some p →
          c ≤ p.1.id ∧ c ≤ p.2.id ∧ p.1.width = w ∧ p.1.height = h ∧
          p.2.width = w ∧ p.2.height = h) ∧
        (∀ name q, findA m'.bind_groups name = some q →
          c ≤ q.1.id ∧ c ≤ q.2.id ∧
          ∃ p, findA m'.buffers name = some p ∧
            q.1.textureId = p.1.id ∧ q.2.textureId = p.2.id) ∧
        (c ≤ m'.output_texture.id ∧ c ≤ m'.output_bind_group.id ∧
          m'.output_texture.width = w ∧ m'.output_texture.height = h) ∧
        (∀ name q q₀, findA m'.bind_groups name = some q →
          findA m.bind_groups name = some q₀ →
          q₀.1.id < c → q₀.2.id < c →
          q.1 ≠ q₀.1 ∧ q.1 ≠ q₀.2 ∧ q.2 ≠ q₀.1 ∧ q.2 ≠ q₀.2)) := by
  intro m c w h
  refine ⟨rfl, ?_⟩
  intro m' c' hr
  obtain ⟨⟨hk1, hk2, hws, hw, hh, hf, _, _⟩, hbuf, hbg, hout⟩ :=
    clear_all_spec { m with width := w, height := h } c m' c' hr
  refine ⟨hw, hh, ?_, ?_, ?_, ?_, ?_⟩
  · intro name
    show (findA m'.write_side name).getD false = false
    rw [hws]
    dsimp only
    rw [findA_map_false]
    cases findA m.write_side name <;> rfl
  · intro name p hp
    obtain ⟨h1, h2, h3, h4, h5, h6, h7, _⟩ := hbuf name p hp
    exact ⟨h1, by omega, h3, h4, h6, h7⟩
  · intro name q hq
    obtain ⟨h1, h2, _, _, hex⟩ := hbg name q hq
    exact ⟨h1, by omega, hex⟩
  · exact ⟨hout.1, hout.2.1, hout.2.2.1, hout.2.2.2.1⟩
  · intro name q q₀ hq hq₀ hlt1 hlt2
    obtain ⟨h1, h2, _⟩ := hbg name q hq
    refine ⟨fun heq => ?_, fun heq => ?_, fun heq => ?_, fun heq => ?_⟩
    · rw [heq] at h1
      omega
    · rw [heq] at h1
      omega
    · have : c ≤ q.2.id := by omega
      rw [heq] at this
      omega
    · have : c ≤ q.2.id := by omega
      rw [heq] at this
      omega

/-- Witness for claim C5 at a concrete manager resized to 8 by 2 at device
counter 100. -/
theorem claim_C5_witness :
    sampleManager.resize 100 8 2 =
      MultiPassManager.clear_all
        { sampleManager with width := 8, height := 2 } 100 ∧
    sampleResized.1.width = 8 ∧ sampleResized.1.height = 2 ∧
    sampleResized.1.get_write_side "b" = false := by
  obtain ⟨heq, hrest⟩ := claim_C5_resize_is_store_then_clear sampleManager 100 8 2
  obtain ⟨hw, hh, hside, _⟩ :=
    hrest sampleResized.1 sampleResized.2 (by rfl)
  exact ⟨heq, hw, hh, hside "b"⟩

theorem findA_insertA {α : Type} (l : List (String × α)) (k k' : String)
    (v : α) :
    findA (insertA l k v) k' = if k = k' then some v else findA l k' := by
  by_cases h : k = k'
  · rw [if_pos h]
    subst h
    exact findA_insertA_self l k v
  · rw [if_neg h]
    exact findA_insertA_ne l k k' v h

theorem newLoop_spec (w h : Nat) (fmt : TexFormat) (layout : BGLayout) :
    ∀ (names : List String) (bufs : List (String × (Texture × Texture)))
      (bgs : List (String × (BindGroup × BindGroup))) (c : Nat),
      (∀ k, k ∈ keysA
          (MultiPassManager.newLoop w h fmt layout names bufs bgs c).1 ↔
        k ∈ keysA bufs ∨ k ∈ names) ∧
      (∀ k, k ∈ keysA
          (MultiPassManager.newLoop w h fmt layout names bufs bgs c).2.1 ↔
        k ∈ keysA bgs ∨ k ∈ names) ∧
      ((keysA bufs).Nodup →
        (keysA (MultiPassManager.newLoop w h fmt layout names bufs
          bgs c).1).Nodup) ∧
      ((keysA bgs).Nodup →
        (keysA (MultiPassManager.newLoop w h fmt layout names bufs
          bgs c).2.1).Nodup) ∧
      ((∀ name p, findA bufs name = some p → p.1.id ≠ p.2.id) →
        ∀ name p, findA (MultiPassManager.newLoop w h fmt layout names bufs
          bgs c).1 name = some p → p.1.id ≠ p.2.id) := by
  intro names
  induction names with
  | nil =>
    intro bufs bgs c
    exact ⟨fun k => by simp [MultiPassManager.newLoop],
      fun k => by simp [MultiPassManager.newLoop],
      fun hn => hn, fun hn => hn, fun hp => hp⟩
  | cons a rest ih =>
    intro bufs bgs c
    simp only [MultiPassManager.newLoop, create_storage_texture,
      create_storage_bind_group]
    obtain ⟨ih1, ih2, ih3, ih4, ih5⟩ := ih (insertA bufs a
      ({ id := c, width := w, height := h, format := fmt,
         label := a ++ "_0" },
       { id := c + 1, width := w, height := h, format := fmt,
         label := a ++ "_1" }))
      (insertA bgs a
        ({ id := c + 1 + 1, layout := layout, textureId := c,
           label := a ++ "_0_bind" },
         { id := c + 1 + 1 + 1, layout := layout, textureId := c + 1,
           label := a ++ "_1_bind" })) (c + 1 + 1 + 1 + 1)
    refine ⟨?_, ?_, ?_, ?_, ?_⟩
    · intro k
      rw [ih1 k, mem_keysA_insertA, List.mem_cons]
      tauto
    · intro k
      rw [ih2 k, mem_keysA_insertA, List.mem_cons]
      tauto
    · intro hn
      exact ih3 (nodup_keysA_insertA bufs a _ hn)
    · intro hn
      exact ih4 (nodup_keysA_insertA bgs a _ hn)
    · intro hp
      apply ih5
      intro name p hfind
      rw [findA_insertA] at hfind
      by_cases hk : a = name
      · rw [if_pos hk] at hfind
        obtain rfl := Option.some.inj hfind
        dsimp only
        omega
      · rw [if_neg hk] at hfind
        exact hp name p hfind

theorem foldl_insert_false_find :
    ∀ (names : List String) (ws : List (String × Bool)) (k : String),
      findA (names.foldl (fun ws n => insertA ws n false) ws) k =
        if k ∈ names then some false else findA ws k := by
  intro names
  induction names with
  | nil =>
    intro ws k
    simp
  | cons a t ih =>
    intro ws k
    rw [List.foldl_cons, ih]
    by_cases hm : k ∈ t
    · rw [if_pos hm, if_pos (List.mem_cons_of_mem a hm)]
    · rw [if_neg hm]
      by_cases ha : k = a
      · subst ha
        rw [findA_insertA_self, if_pos (List.mem_cons_self k t)]
      · rw [findA_insertA_ne ws a k false (fun hh => ha hh.symm)]
        rw [if_neg ?hnot]
        case hnot =>
          intro hc
          rcases List.mem_cons.1 hc with hc | hc
          · exact ha hc
          · exact hm hc

theorem foldl_insert_false_mem :
    ∀ (names : List String) (ws : List (String × Bool)) (k : String),
      k ∈ keysA (names.foldl (fun ws n => insertA ws n false) ws) ↔
        k ∈ keysA ws ∨ k ∈ names := by
  intro names
  induction names with
  | nil =>
    intro ws k
    simp
  | cons a t ih =>
    intro ws k
    rw [List.foldl_cons, ih, mem_keysA_insertA, List.mem_cons]
    tauto

theorem foldl_insert_false_nodup :
    ∀ (names : List String) (ws : List (String × Bool)),
      (keysA ws).Nodup →
      (keysA (names.foldl (fun ws n => insertA ws n false) ws)).Nodup := by
  intro names
  induction names with
  | nil =>
    intro ws hn
    exact hn
  | cons a t ih =>
    intro ws hn
    rw [List.foldl_cons]
    exact ih _ (nodup_keysA_insertA ws a false hn)

/-- Claim C9: after construction, the manager tracks exactly one texture
pair, one bind-group pair and one write-side bit per distinct name in the
constructor's list (duplicates collapse), and every bit starts at
`false`. -/
theorem claim_C9_new_one_entry_per_distinct_name :
    ∀ (w h : Nat) (names : List String) (fmt : TexFormat) (c : Nat)
      (k : String),
      ((keysA (MultiPassManager.new w h names fmt c).1.buffers).Nodup ∧
        (keysA (MultiPassManager.new w h names fmt c).1.bind_groups).Nodup ∧
        (keysA (MultiPassManager.new w h names fmt c).1.write_side).Nodup) ∧
      ((k ∈ keysA (MultiPassManager.new w h names fmt c).1.buffers ↔
          k ∈ names) ∧
        (k ∈ keysA (MultiPassManager.new w h names fmt c).1.bind_groups ↔
          k ∈ names) ∧
        (k ∈ keysA (MultiPassManager.new w h names fmt c).1.write_side ↔
          k ∈ names)) ∧
      (k ∈ names →
        findA (MultiPassManager.new w h names fmt c).1.write_side k =
          some false) := by
  intro w h names fmt c k
  obtain ⟨h1, h2, h3, h4, _⟩ :=
    newLoop_spec w h fmt { id := c } names [] [] (c + 1 + 1)
  simp only [MultiPassManager.new, create_bind_group_layout,
    create_storage_texture, create_storage_bind_group]
  refine ⟨⟨h3 List.nodup_nil, h4 List.nodup_nil,
      foldl_insert_false_nodup names [] List.nodup_nil⟩,
    ⟨?_, ?_, ?_⟩, ?_⟩
  · rw [h1 k]
    simp
  · rw [h2 k]
    simp
  · rw [foldl_insert_false_mem names [] k]
    simp
  · intro hk
    rw [foldl_insert_false_find names [] k, if_pos hk]

/-- Witness for claim C9 at a concrete duplicated name list. -/
theorem claim_C9_witness :
    (keysA (MultiPassManager.new 4 4 ["a", "b", "a"]
        TexFormat.Rgba16Float 0).1.buffers).Nodup ∧
    ("a" ∈ keysA (MultiPassManager.new 4 4 ["a", "b", "a"]
        TexFormat.Rgba16Float 0).1.buffers ↔ "a" ∈ ["a", "b", "a"]) ∧
    findA (MultiPassManager.new 4 4 ["a", "b", "a"]
        TexFormat.Rgba16Float 0).1.write_side "a" = some false := by
  obtain ⟨hnodup, hmem, hfind⟩ :=
    claim_C9_new_one_entry_per_distinct_name 4 4 ["a", "b", "a"]
      TexFormat.Rgba16Float 0 "a"
  exact ⟨hnodup.1, hmem.1, hfind (by decide)⟩

theorem new_sides_distinct (w h : Nat) (names : List String)
    (fmt : TexFormat) (c : Nat) :
    SidesDistinct (MultiPassManager.new w h names fmt c).1 := by
  obtain ⟨_, _, _, _, h5⟩ :=
    newLoop_spec w h fmt { id := c } names [] [] (c + 1 + 1)
  intro name p hp
  refine h5 ?_ name p ?_
  · intro name' p' hp'
    exact absurd hp' (by simp)
  · exact hp

theorem reachable_sides_distinct (m : MultiPassManager)
    (hr : Reachable m) : SidesDistinct m := by
  induction hr with
  | init w h names fmt c => exact new_sides_distinct w h names fmt c
  | mark m name hr ih => exact ih
  | flip m hr ih => exact ih
  | clearStep m m' c c' hr hcl ih =>
    intro name p hp
    obtain ⟨_, hbuf, _⟩ := clear_all_spec m c m' c' hcl
    obtain ⟨h1, h2, _⟩ := hbuf name p hp
    omega
  | resizeStep m m' c c' w h hr hres ih =>
    intro name p hp
    obtain ⟨_, hbuf, _⟩ :=
      clear_all_spec { m with width := w, height := h } c m' c' hres
    obtain ⟨h1, h2, _⟩ := hbuf name p hp
    omega

/-- Claim C1: for every registered buffer, `read` resolves the side the
bit designates as last written, `write` (texture and bind group) resolves
the opposite physical side, and in every reachable state the two resolved
textures are never the same resource. -/
theorem claim_C1_read_write_opposite :
    ∀ (m : MultiPassManager) (name : String) (p : Texture × Texture),
      findA m.buffers name = some p →
      (m.get_read_texture name =
          some (if m.get_write_side name then p.1 else p.2) ∧
        m.get_write_texture name =
          some (if m.get_write_side name then p.2 else p.1)) ∧
      (∀ q, findA m.bind_groups name = some q →
        m.get_write_bind_group name =
          some (if m.get_write_side name then q.2 else q.1)) ∧
      (Reachable m → m.get_read_texture name ≠ m.get_write_texture name) := by
  intro m name p hp
  have hread : m.get_read_texture name =
      some (if m.get_write_side name then p.1 else p.2) := by
    unfold MultiPassManager.get_read_texture MultiPassManager.get_write_side
    rw [hp]
    dsimp only
    cases (findA m.write_side name).getD false <;> rfl
  have hwrite : m.get_write_texture name =
      some (if m.get_write_side name then p.2 else p.1) := by
    unfold MultiPassManager.get_write_texture MultiPassManager.get_write_side
    rw [hp]
    dsimp only
    cases (findA m.write_side name).getD false <;> rfl
  refine ⟨⟨hread, hwrite⟩, ?_, ?_⟩
  · intro q hq
    unfold MultiPassManager.get_write_bind_group
      MultiPassManager.get_write_side
    rw [hq]
    dsimp only
    cases (findA m.write_side name).getD false <;> rfl
  · intro hreach
    have hsd := reachable_sides_distinct m hreach name p hp
    rw [hread, hwrite]
    intro hcontra
    rw [Option.some.injEq] at hcontra
    cases hws : m.get_write_side name
    · rw [hws] at hcontra
      rw [if_neg (by simp)] at hcontra
      rw [if_neg (by simp)] at hcontra
      exact hsd (by rw [hcontra])
    · rw [hws] at hcontra
      rw [if_pos rfl] at hcontra
      rw [if_pos rfl] at hcontra
      exact hsd (by rw [hcontra])

/-- Witness for claim C1 at a concrete reachable manager and its tracked
buffer "a". -/
theorem claim_C1_witness :
    sampleManager.get_read_texture "a" ≠
      sampleManager.get_write_texture "a" :=
  ((claim_C1_read_write_opposite sampleManager "a"
      ((findA sampleManager.buffers "a").getD fallbackPair)
      (by rfl)).2.2)
    (Reachable.init 4 4 ["a", "b"] TexFormat.Rgba16Float 0)

theorem modifyA_eq_map (l : List (String × Bool)) (k : String)
    (h : (keysA l).Nodup) :
    modifyA l k (fun b => !b) =
      l.map (fun p => if p.1 = k then (p.1, !p.2) else p) := by
  induction l with
  | nil => rfl
  | cons hd t ih =>
    obtain ⟨k₀, v₀⟩ := hd
    rw [keysA_cons, List.nodup_cons] at h
    obtain ⟨hnotin, hnd⟩ := h
    rw [modifyA_cons, List.map_cons]
    dsimp only
    by_cases hk : k₀ = k
    · rw [if_pos hk, if_pos hk]
      have htail : t.map (fun (p : String × Bool) =>
          if p.1 = k then (p.1, !p.2) else p) = t := by
        have hid : ∀ p ∈ t, (fun (p : String × Bool) =>
            if p.1 = k then (p.1, !p.2) else p) p = id p := by
          intro p hp
          have hne : p.1 ≠ k := by
            intro hc
            apply hnotin
            rw [hk, ← hc]
            exact List.mem_map_of_mem (fun x => x.1) hp
          dsimp only [id]
          rw [if_neg hne]
        rw [List.map_congr_left hid, List.map_id]
      rw [htail]
    · rw [if_neg hk, if_neg hk, ih hnd]

theorem foldl_modify_parity :
    ∀ (l : List String) (ws : List (String × Bool)),
      (keysA ws).Nodup →
      l.foldl (fun acc n => modifyA acc n (fun b => !b)) ws =
        ws.map (fun p =>
          (p.1, Bool.xor p.2 (decide (l.count p.1 % 2 = 1)))) := by
  intro l
  induction l with
  | nil =>
    intro ws h
    rw [List.foldl_nil]
    have hid : ∀ p ∈ ws, (fun (p : String × Bool) =>
        (p.1, Bool.xor p.2 (decide (([] : List String).count p.1 % 2 = 1))))
          p = id p := by
      intro p hp
      obtain ⟨k₁, v₁⟩ := p
      dsimp only [id]
      rw [List.count_nil]
      cases v₁ <;> rfl
    rw [List.map_congr_left hid, List.map_id]
  | cons a t ih =>
    intro ws h
    rw [List.foldl_cons]
    rw [ih (modifyA ws a (fun b => !b))
      (by rw [keysA_modifyA]; exact h)]
    rw [modifyA_eq_map ws a h, List.map_map]
    apply List.map_congr_left
    intro p hp
    dsimp only [Function.comp]
    by_cases hpa : p.1 = a
    · rw [if_pos hpa]
      dsimp only
      have hcount : (a :: t).count p.1 = t.count p.1 + 1 := by
        rw [hpa]
        exact List.count_cons_self a t
      rw [hcount, decide_succ_mod_two]
      have hgoal : ∀ (x d : Bool),
          ((p.1, Bool.xor (!x) d) : String × Bool) =
            (p.1, Bool.xor x (!d)) := by
        intro x d
        cases x <;> cases d <;> rfl
      exact hgoal p.2 (decide (t.count p.1 % 2 = 1))
    · rw [if_neg hpa]
      rw [List.count_cons_of_ne hpa]

theorem foldl_mark_written_eq (l : List String) :
    ∀ m : MultiPassManager,
      l.foldl (fun mm n => mm.mark_written n) m =
        { m with write_side :=
            (l.foldl (fun acc n => modifyA acc n (fun b => !b))
              m.write_side) } := by
  induction l with
  | nil =>
    intro m
    rfl
  | cons a t ih =>
    intro m
    rw [List.foldl_cons, List.foldl_cons, ih]
    rfl

/-- Claim C3: `flip_buffers` flips every tracked bit in one call and
changes nothing else; it is involutive, and it is extensionally equal to
one `mark_written` per tracked name, folded in any order. -/
theorem claim_C3_flip_all :
    ∀ (m : MultiPassManager),
      (m.flip_buffers.flip_buffers = m) ∧
      (m.flip_buffers.buffers = m.buffers ∧
        m.flip_buffers.bind_groups = m.bind_groups ∧
        m.flip_buffers.output_texture = m.output_texture ∧
        m.flip_buffers.output_bind_group = m.output_bind_group ∧
        m.flip_buffers.width = m.width ∧
        m.flip_buffers.height = m.height ∧
        m.flip_buffers.texture_format = m.texture_format) ∧
      (∀ name, findA m.flip_buffers.write_side name =
        (findA m.write_side name).map (fun b => !b)) ∧
      ((keysA m.write_side).Nodup →
        ∀ l : List String, l.Perm (keysA m.write_side) →
          l.foldl (fun mm n => mm.mark_written n) m = m.flip_buffers) := by
  intro m
  refine ⟨?_, ⟨rfl, rfl, rfl, rfl, rfl, rfl, rfl⟩, ?_, ?_⟩
  · have hws : (m.write_side.map (fun p => (p.1, !p.2))).map
        (fun p => (p.1, !p.2)) = m.write_side := by
      rw [List.map_map]
      have hid : ∀ p ∈ m.write_side, ((fun (p : String × Bool) =>
          (p.1, !p.2)) ∘ (fun p => (p.1, !p.2))) p = id p := by
        intro p hp
        obtain ⟨k₁, v₁⟩ := p
        show ((k₁, !!v₁) : String × Bool) = (k₁, v₁)
        cases v₁ <;> rfl
      rw [List.map_congr_left hid, List.map_id]
    unfold MultiPassManager.flip_buffers
    dsimp only
    rw [hws]
  · intro name
    exact findA_map_not m.write_side name
  · intro hnd l hperm
    rw [foldl_mark_written_eq, foldl_modify_parity l m.write_side hnd]
    have hmap : ∀ p ∈ m.write_side, (fun (p : String × Bool) =>
        (p.1, Bool.xor p.2 (decide (l.count p.1 % 2 = 1)))) p =
          (fun (p : String × Bool) => (p.1, !p.2)) p := by
      intro p hp
      dsimp only
      have hmem : p.1 ∈ keysA m.write_side :=
        List.mem_map_of_mem (fun x => x.1) hp
      have hcount : l.count p.1 = 1 := by
        rw [hperm.count_eq]
        exact List.count_eq_one_of_mem hnd hmem
      rw [hcount]
      cases p.2 <;> rfl
    unfold MultiPassManager.flip_buffers
    rw [List.map_congr_left hmap]

/-- Witness for claim C3: folding one commit per tracked name of a
concrete manager, in reversed order, equals one `flip_buffers` call. -/
theorem claim_C3_witness :
    ["b", "a"].foldl (fun mm n => mm.mark_written n) sampleManager =
      sampleManager.flip_buffers :=
  (claim_C3_flip_all sampleManager).2.2.2 (by decide) ["b", "a"] (by decide)

end Cuneus
